import Mathlib

/-!
Verification of the incremental crawl engine in `fetch_8891_csv.py`.

The development shallowly embeds the Python source: parsed JSON values
(as produced by `json.loads` / `requests.Response.json`) become the
inductive type `JVal`; Python exceptions that can escape a modeled
operation are made explicit with `Except PyExc`; Python floats are
modeled as exact decimal numbers extended with the special values
`inf`, `-inf` and `nan` (IEEE rounding of literals is not modeled, so
decimal literals parse exactly).  Machine integers do not overflow in
Python, so `Int`/`Nat` are used directly.

Embedded components, in source order:
 * text cleaning `clean_text` (including the byte-level re-decoding
   repair heuristics over latin-1 / cp1252 / UTF-8),
 * numeric field parsing `parse_price_to_ntd`, `parse_mileage_to_km`,
   `parse_year`,
 * record normalization `normalize_item`,
 * dedup-ledger rehydration `load_existing_ids` (composed with the
   CSV cell serialization performed by `append_rows`/`csv.DictWriter`),
 * the response-extraction logic and the per-task crawl loop of `run`,
   including the fixed/auto mode guards, the safety cap, the
   empty-page stop, the unchanged-page stop and the single batch
   append performed after the loop.

The per-task loop is embedded with an explicit fuel argument (the
Python loop is `while True`); `taskFuel` is provably sufficient, so
fuel exhaustion never occurs for the embedded entry point `runTask`.
Out of scope: actual network and file I/O, logging, `time.sleep`
pacing, the raw JSONL archive (it never feeds back into the engine),
and multi-task orchestration (tasks own disjoint partition files and
are independent; the claims concern a single task's run).
-/

/-- Python exception classes that can be raised by the modeled code paths. -/
inductive PyExc where
  | valueError
  | overflowError
  | typeError
  | attributeError
  deriving DecidableEq

/-- Parsed JSON values as they appear in Python after `json.loads`: `None`,
`bool`, `int`, `float` (modeled as an exact rational), `str`, `list`, `dict`.
JSON object duplicate keys are kept in order; lookup takes the last
occurrence, as `json.loads` does. -/
inductive JVal where
  | jnull
  | jbool (b : Bool)
  | jint (n : Int)
  | jfloat (q : Rat)
  | jstr (s : String)
  | jarr (xs : List JVal)
  | jobj (fs : List (String × JVal))

/-- Python `dict.get(k)`: the value stored under `k`, `None` when absent.
Duplicate keys resolve to the last occurrence (the `json.loads` behavior). -/
def dictGetD (fs : List (String × JVal)) (k : String) : JVal :=
  fs.foldl (fun acc kv => if kv.1 = k then kv.2 else acc) JVal.jnull

/-- Python truthiness of a parsed JSON value (`if not v: ...`). -/
def pyTruthy : JVal → Bool
  | .jnull => false
  | .jbool b => b
  | .jint n => decide (n ≠ 0)
  | .jfloat q => decide (q ≠ 0)
  | .jstr s => decide (s ≠ "")
  | .jarr xs => !xs.isEmpty
  | .jobj fs => !fs.isEmpty

/-- Characters treated as whitespace by Python `str.split()` / `str.strip()`. -/
def pyIsSpace (c : Char) : Bool :=
  let n := c.toNat
  decide ((9 ≤ n ∧ n ≤ 13) ∨ (28 ≤ n ∧ n ≤ 31) ∨ n = 32 ∨ n = 133 ∨ n = 160 ∨
    n = 5760 ∨ (8192 ≤ n ∧ n ≤ 8202) ∨ n = 8232 ∨ n = 8233 ∨ n = 8239 ∨
    n = 8287 ∨ n = 12288)

/-- Python `str.strip()` on a character list: drop leading and trailing
whitespace. -/
def stripPy (l : List Char) : List Char :=
  ((l.dropWhile pyIsSpace).reverse.dropWhile pyIsSpace).reverse

/-- Accumulator pass for `runsOf`: collect the maximal runs of characters
satisfying `p`, in order, dropping the separating characters. -/
def runsAux (p : Char → Bool) : List Char → List Char → List (List Char)
  | [], cur => if cur.isEmpty then [] else [cur.reverse]
  | c :: rest, cur =>
    if p c then runsAux p rest (c :: cur)
    else if cur.isEmpty then runsAux p rest []
    else cur.reverse :: runsAux p rest []

/-- Maximal runs of characters satisfying `p`.  With `p` = "not whitespace"
this is Python `str.split()`; with `p` = "digit or dot" it is
`re.findall(r'[\d.]+', s)` (ASCII digits; the Unicode digit classes of
`re` are not modeled). -/
def runsOf (p : Char → Bool) (l : List Char) : List (List Char) :=
  runsAux p l []

/-- Python `' '.join(words)`. -/
def joinWords : List (List Char) → List Char
  | [] => []
  | [w] => w
  | w :: rest => w ++ ' ' :: joinWords rest

/-- Value of an ASCII digit character. -/
def digitVal (c : Char) : Option Nat :=
  if c.isDigit then some (c.toNat - 48) else none

/-- Digit-run scanner for Python numeric literals: consumes decimal digits,
allowing single underscores between digits, and returns the accumulated
value, the number of digits consumed so far, and the unconsumed rest.
Returns `none` on a misplaced underscore. -/
def readNatUCore : Nat → Nat → List Char → Option (Nat × Nat × List Char)
  | acc, k, [] => some (acc, k, [])
  | acc, k, c :: rest =>
    match digitVal c with
    | some d => readNatUCore (10 * acc + d) (k + 1) rest
    | none =>
      if c = '_' then
        match rest with
        | c2 :: rest2 =>
          match digitVal c2 with
          | some d => readNatUCore (10 * acc + d) (k + 1) rest2
          | none => none
        | [] => none
      else some (acc, k, c :: rest)

/-- Read a nonempty digit run (underscores between digits allowed, as in
Python numeric literals) from the head of the list. -/
def readNatU : List Char → Option (Nat × Nat × List Char)
  | [] => none
  | c :: rest =>
    match digitVal c with
    | some d => readNatUCore d 1 rest
    | none => none

/-- Parse an entire character list as a nonnegative decimal integer
(Python digit-group rules for underscores); `none` unless fully consumed. -/
def parseNatU (l : List Char) : Option Nat :=
  match readNatU l with
  | some (v, _, []) => some v
  | _ => none

/-- Python `int(s)` on a string: optional surrounding whitespace, optional
sign, decimal digits (ASCII; other bases and non-ASCII digits are not
modeled).  `none` models the `ValueError` raised on anything else. -/
def pyIntString (s : String) : Option Int :=
  match stripPy s.data with
  | [] => none
  | '+' :: rest => (parseNatU rest).map Int.ofNat
  | '-' :: rest => (parseNatU rest).map (fun n => -(n : Int))
  | rest => (parseNatU rest).map Int.ofNat

/-- Decimal digits of `n`, least significant first, with explicit fuel
(structural recursion so that proofs can evaluate it); `fuel = n + 1`
always suffices since the argument shrinks by a factor of ten. -/
def natDigitsRevF : Nat → Nat → List Char
  | 0, _ => []
  | fuel + 1, n =>
    if n < 10 then [Char.ofNat (48 + n)]
    else Char.ofNat (48 + n % 10) :: natDigitsRevF fuel (n / 10)

/-- Decimal digits of `n`, least significant first. -/
def natDigitsRev (n : Nat) : List Char :=
  natDigitsRevF (n + 1) n

/-- Decimal representation of a natural number (Python `str(n)` for `n ≥ 0`). -/
def natRepr (n : Nat) : String :=
  String.mk (natDigitsRev n).reverse

/-- Python `str` of an `int`. -/
def intRepr (i : Int) : String :=
  if i < 0 then "-" ++ natRepr i.natAbs else natRepr i.natAbs

/-- Python float values: exact decimal fixed-point numbers (`finite n p`
denotes `n / 10 ^ p`) plus the special values.  Float literals are kept
exact rather than rounded to IEEE doubles; every value the embedded code
builds is a scaled decimal literal, which this representation captures
exactly. -/
inductive PyFloat where
  | finite (num : Int) (pow10 : Nat)
  | inf
  | ninf
  | nan
  deriving DecidableEq

/-- Lower-case an ASCII letter. -/
def toLowerAscii (c : Char) : Char :=
  if 'A' ≤ c ∧ c ≤ 'Z' then Char.ofNat (c.toNat + 32) else c

/-- Split a float literal at the first `e`/`E` (exponent marker), if any. -/
def splitExpMark : List Char → List Char × Option (List Char)
  | [] => ([], none)
  | c :: rest =>
    if c = 'e' ∨ c = 'E' then ([], some rest)
    else
      let (m, e) := splitExpMark rest
      (c :: m, e)

/-- Parse the exponent part of a float literal (after `e`). -/
def parseExpPart : List Char → Option Int
  | [] => none
  | '+' :: rest => (parseNatU rest).map Int.ofNat
  | '-' :: rest => (parseNatU rest).map (fun n => -(n : Int))
  | rest => (parseNatU rest).map Int.ofNat

/-- Parse the mantissa of a float literal (`D+ [. D*]` or `[D+] . D+`) as
an exact decimal: the digits as a natural number plus the count of
fraction digits. -/
def parseMantissa (cs : List Char) : Option (Nat × Nat) :=
  match cs with
  | '.' :: restF =>
    match readNatU restF with
    | some (f, k, []) => some (f, k)
    | _ => none
  | _ =>
    match readNatU cs with
    | some (i, _, []) => some (i, 0)
    | some (i, _, '.' :: restF) =>
      match restF with
      | [] => some (i, 0)
      | _ =>
        match readNatU restF with
        | some (f, k, []) => some (i * 10 ^ k + f, k)
        | _ => none
    | _ => none

/-- Scale an exact decimal by a power of ten (float literal exponent). -/
def scalePow10 (n : Int) (p : Nat) (e : Int) : Int × Nat :=
  if 0 ≤ e then (n * ((10 ^ e.toNat : Nat) : Int), p) else (n, p + (-e).toNat)

/-- Parse an unsigned float literal body: `inf`/`infinity`/`nan`
(case-insensitive) or a decimal mantissa with optional exponent. -/
def floatBody (cs : List Char) : Option PyFloat :=
  let low := cs.map toLowerAscii
  if low = ['i', 'n', 'f'] ∨ low = ['i', 'n', 'f', 'i', 'n', 'i', 't', 'y'] then
    some .inf
  else if low = ['n', 'a', 'n'] then some .nan
  else
    match splitExpMark cs with
    | (m, none) => (parseMantissa m).map (fun v => .finite v.1 v.2)
    | (m, some e) => do
      let v ← parseMantissa m
      let ex ← parseExpPart e
      let w := scalePow10 v.1 v.2 ex
      pure (.finite w.1 w.2)

/-- Python `float(s)`: surrounding whitespace, optional sign, then a float
literal body.  The error value models the `ValueError` raised on anything
else.  (Overflow of huge finite literals to `inf` is not modeled; finite
literals stay exact.) -/
def floatOfString (s : String) : Except PyExc PyFloat :=
  let parseSigned : List Char → Option PyFloat := fun cs =>
    match cs with
    | '+' :: rest => floatBody rest
    | '-' :: rest =>
      match floatBody rest with
      | some .inf => some .ninf
      | some .nan => some .nan
      | some (.finite n p) => some (.finite (-n) p)
      | some .ninf => some .ninf
      | none => none
    | rest => floatBody rest
  match parseSigned (stripPy s.data) with
  | some f => .ok f
  | none => .error .valueError

/-- Multiplication of a Python float by a positive integer constant
(the `* 10000` in the myriad branch). -/
def PyFloat.mulPosNat : PyFloat → Nat → PyFloat
  | .finite n p, m => .finite (n * (m : Int)) p
  | .inf, _ => .inf
  | .ninf, _ => .ninf
  | .nan, _ => .nan

/-- Python `round(x)` on a float: round-half-to-even on finite values;
`ValueError` on `nan`, `OverflowError` on the infinities. -/
def pyRound : PyFloat → Except PyExc Int
  | .finite n p =>
    let d : Int := ((10 ^ p : Nat) : Int)
    let f := n.fdiv d
    let r := n - f * d
    if 2 * r < d then .ok f
    else if d < 2 * r then .ok (f + 1)
    else if f % 2 = 0 then .ok f
    else .ok (f + 1)
  | .nan => .error .valueError
  | .inf => .error .overflowError
  | .ninf => .error .overflowError

/-- Python `int(x)` on a float: truncation toward zero on finite values;
`ValueError` on `nan`, `OverflowError` on the infinities. -/
def pyTruncF : PyFloat → Except PyExc Int
  | .finite n p => .ok (n.tdiv ((10 ^ p : Nat) : Int))
  | .nan => .error .valueError
  | .inf => .error .overflowError
  | .ninf => .error .overflowError

/-- Left-pad a digit string with zeros to width `k`. -/
def zeroPad (k : Nat) (s : String) : String :=
  String.mk (List.replicate (k - s.length) '0') ++ s

/-- Decimal representation of a Python float modeled as a rational.  Exact
when the denominator divides a power of ten (every actual double does);
Python's shortest-roundtrip repr of doubles is approximated by the exact
decimal expansion. -/
def floatRepr (q : Rat) : String :=
  if q.den = 1 then intRepr q.num ++ ".0"
  else
    match (List.range 64).find? (fun k => decide (q.den ∣ 10 ^ k)) with
    | some k =>
      let scaled := q.num.natAbs * 10 ^ k / q.den
      (if q.num < 0 then "-" else "") ++ natRepr (scaled / 10 ^ k) ++ "." ++
        zeroPad k (natRepr (scaled % 10 ^ k))
    | none => intRepr q.num ++ "/" ++ natRepr q.den

mutual

/-- Python `repr()` of a parsed JSON value (string escaping inside quotes is
not modeled; only the quoting itself). -/
def pyRepr : JVal → String
  | .jnull => "None"
  | .jbool b => if b then "True" else "False"
  | .jint n => intRepr n
  | .jfloat q => floatRepr q
  | .jstr s => "'" ++ s ++ "'"
  | .jarr xs => "[" ++ pyReprList xs ++ "]"
  | .jobj fs => "\x7b" ++ pyReprFields fs ++ "\x7d"

/-- Comma-separated `repr` of list elements. -/
def pyReprList : List JVal → String
  | [] => ""
  | [x] => pyRepr x
  | x :: rest => pyRepr x ++ ", " ++ pyReprList rest

/-- Comma-separated `repr` of dict entries. -/
def pyReprFields : List (String × JVal) → String
  | [] => ""
  | [(k, v)] => "'" ++ k ++ "': " ++ pyRepr v
  | (k, v) :: rest => "'" ++ k ++ "': " ++ pyRepr v ++ ", " ++ pyReprFields rest

end

/-- Python `str()` of a parsed JSON value: identity on strings, `repr`-like
otherwise. -/
def pyStr : JVal → String
  | .jstr s => s
  | v => pyRepr v

/-- Python `int(x)` applied to a parsed JSON value under a bare
`try`/`except` (as in the item-identifier coercion): any raised
`TypeError`/`ValueError` becomes `none`.  `bool` is an `int` subclass in
Python, floats truncate toward zero, strings parse as decimal integers. -/
def pyIntCoerce : JVal → Option Int
  | .jnull => none
  | .jbool b => some (if b then 1 else 0)
  | .jint n => some n
  | .jfloat q => some (q.num.tdiv q.den)
  | .jstr s => pyIntString s
  | .jarr _ => none
  | .jobj _ => none

/-- Corruption markers looked for by `clean_text`: the replacement
character U+FFFD (the source lists it twice, once literally and once as
an escape) and the question mark. -/
def pyMarker (c : Char) : Bool :=
  c = Char.ofNat 0xFFFD ∨ c = '?'

/-- Python `s.encode('latin1')`: byte values are the code points, failing
(`UnicodeEncodeError`) when any code point exceeds 255. -/
def encodeLatin1 (cs : List Char) : Option (List Nat) :=
  if cs.all (fun c => decide (c.toNat ≤ 255)) then some (cs.map Char.toNat)
  else none

/-- Continuation byte test for UTF-8 decoding. -/
def utf8Cont (b : Nat) : Bool :=
  decide (128 ≤ b ∧ b ≤ 191)

/-- Constraint on the first continuation byte of a three-byte sequence. -/
def utf8Cont3ok (b b2 : Nat) : Bool :=
  if b = 224 then decide (160 ≤ b2 ∧ b2 ≤ 191)
  else if b = 237 then decide (128 ≤ b2 ∧ b2 ≤ 159)
  else utf8Cont b2

/-- Constraint on the first continuation byte of a four-byte sequence. -/
def utf8Cont4ok (b b2 : Nat) : Bool :=
  if b = 240 then decide (144 ≤ b2 ∧ b2 ≤ 191)
  else if b = 244 then decide (128 ≤ b2 ∧ b2 ≤ 143)
  else utf8Cont b2

/-- Try to decode one UTF-8 sequence with lead byte `b` and following bytes
`rest`; on success return the character and how many bytes of `rest` were
consumed. -/
def utf8Step (b : Nat) (rest : List Nat) : Option (Char × Nat) :=
  if b < 128 then some (Char.ofNat b, 0)
  else if 194 ≤ b ∧ b ≤ 223 then
    match rest with
    | b2 :: _ =>
      if utf8Cont b2 then some (Char.ofNat ((b - 192) * 64 + (b2 - 128)), 1)
      else none
    | [] => none
  else if 224 ≤ b ∧ b ≤ 239 then
    match rest with
    | b2 :: b3 :: _ =>
      if utf8Cont3ok b b2 && utf8Cont b3 then
        some (Char.ofNat ((b - 224) * 4096 + (b2 - 128) * 64 + (b3 - 128)), 2)
      else none
    | _ => none
  else if 240 ≤ b ∧ b ≤ 244 then
    match rest with
    | b2 :: b3 :: b4 :: _ =>
      if utf8Cont4ok b b2 && utf8Cont b3 && utf8Cont b4 then
        some (Char.ofNat ((b - 240) * 262144 + (b2 - 128) * 4096 +
          (b3 - 128) * 64 + (b4 - 128)), 3)
      else none
    | _ => none
  else none

/-- Python `bytes.decode('utf-8', errors='ignore')`: decode UTF-8, skipping
over bytes that start no valid sequence.  (CPython may skip an invalid
multi-byte fragment as a unit where this model skips it bytewise; the
callers only test the result for emptiness and corruption markers.) -/
def utf8DecodeIgnoreF : Nat → List Nat → List Char
  | 0, _ => []
  | _ + 1, [] => []
  | fuel + 1, b :: rest =>
    match utf8Step b rest with
    | some (c, k) => c :: utf8DecodeIgnoreF fuel (rest.drop k)
    | none => utf8DecodeIgnoreF fuel rest

/-- Decode with fuel equal to the byte count, which always suffices since
every step consumes at least one byte. -/
def utf8DecodeIgnore (bs : List Nat) : List Char :=
  utf8DecodeIgnoreF bs.length bs

/-- Byte for a character under cp1252 (`errors='ignore'` drops unmappable
characters): ASCII and the Latin-1 range map to themselves, the 0x80–0x9F
row maps from its Windows-1252 symbols. -/
def cp1252Byte (c : Char) : Option Nat :=
  let n := c.toNat
  if n ≤ 127 ∨ (160 ≤ n ∧ n ≤ 255) then some n
  else if n = 8364 then some 128
  else if n = 8218 then some 130
  else if n = 402 then some 131
  else if n = 8222 then some 132
  else if n = 8230 then some 133
  else if n = 8224 then some 134
  else if n = 8225 then some 135
  else if n = 710 then some 136
  else if n = 8240 then some 137
  else if n = 352 then some 138
  else if n = 8249 then some 139
  else if n = 338 then some 140
  else if n = 381 then some 142
  else if n = 8216 then some 145
  else if n = 8217 then some 146
  else if n = 8220 then some 147
  else if n = 8221 then some 148
  else if n = 8226 then some 149
  else if n = 8211 then some 150
  else if n = 8212 then some 151
  else if n = 732 then some 152
  else if n = 8482 then some 153
  else if n = 353 then some 154
  else if n = 8250 then some 155
  else if n = 339 then some 156
  else if n = 382 then some 158
  else if n = 376 then some 159
  else none

/-- Python `s.encode('cp1252', errors='ignore')`. -/
def encodeCp1252Ignore (cs : List Char) : List Nat :=
  cs.filterMap cp1252Byte

/-- Re-decoding repair attempts of `clean_text`: first
`encode('latin1').decode('utf-8', 'ignore')`; if the latin-1 encode raises
(a code point above 255), fall back to
`encode('cp1252', 'ignore').decode('utf-8', 'ignore')`.  A repair result is
kept only when nonempty and free of corruption markers. -/
def fixAttempt (cs : List Char) : List Char :=
  match encodeLatin1 cs with
  | some bs =>
    let fixed := utf8DecodeIgnore bs
    if fixed.isEmpty || fixed.any pyMarker then cs else fixed
  | none =>
    let fixed := utf8DecodeIgnore (encodeCp1252Ignore cs)
    if fixed.isEmpty || fixed.any pyMarker then cs else fixed

/-- Core of `clean_text` on the character list of a string: optional
mojibake repair when corruption markers are present, removal of U+FFFD
and NUL, full-width spaces to ASCII spaces, whitespace normalization via
`' '.join(text.split())`, and a final `strip()`.  (The source's
`except Exception` fallback is unreachable: every operation in the guarded
block is total.) -/
def cleanTextCore (cs : List Char) : List Char :=
  let t1 := if cs.any pyMarker then fixAttempt cs else cs
  let t2 := t1.filter (fun c => !(c = Char.ofNat 0xFFFD ∨ c = Char.ofNat 0))
  let t3 := t2.map (fun c => if c = Char.ofNat 0x3000 then ' ' else c)
  let t4 := joinWords (runsOf (fun c => !pyIsSpace c) t3)
  stripPy t4

/-- Model of `clean_text`: `None` becomes `""`, non-strings are passed
through `str()`, then the cleaning pipeline runs.  The function is total:
its Python body never lets an exception escape. -/
def clean_text : JVal → String
  | .jnull => ""
  | .jstr s => String.mk (cleanTextCore s.data)
  | v => String.mk (cleanTextCore (pyStr v).data)

/-- Leftmost-match search for the year pattern `(19|20)\d{2}` starting at
the head of the list. -/
def yearHead : List Char → Option Nat
  | c0 :: c1 :: c2 :: c3 :: _ =>
    if ((c0 = '1' ∧ c1 = '9') ∨ (c0 = '2' ∧ c1 = '0')) ∧ c2.isDigit ∧ c3.isDigit then
      some (((c0.toNat - 48) * 10 + (c1.toNat - 48)) * 100 +
        (c2.toNat - 48) * 10 + (c3.toNat - 48))
    else none
  | _ => none

/-- Model of `re.search(r'(19|20)\d{2}', s)`: the leftmost four-character
window matching the pattern. -/
def searchYear : List Char → Option Nat
  | [] => none
  | c :: rest =>
    match yearHead (c :: rest) with
    | some y => some y
    | none => searchYear rest

/-- Model of `parse_year(*values)`: skip falsy candidates, return the first
year pattern found in `str(v)`; the `int()` of a matched token never
fails. -/
def parse_year : List JVal → Option Int
  | [] => none
  | v :: rest =>
    if pyTruthy v then
      match searchYear (pyStr v).data with
      | some y => some (Int.ofNat y)
      | none => parse_year rest
    else parse_year rest

/-- Character class of `re.findall(r'[\d.]+', s)` tokens. -/
def numTokChar (c : Char) : Bool :=
  c.isDigit || c = '.'

/-- Model of `parse_price_to_ntd`: `None` passes through; the string is
stripped and thousands separators removed; with a `萬` marker the
remaining text is parsed as a float, scaled by 10000 and rounded
(`except ValueError` turns an unparseable float or a `nan` into `None`,
but the `OverflowError` raised by `round` on an infinite value is NOT
caught and escapes); otherwise the first `[\d.]+` token is parsed and
truncated to an integer. -/
def parse_price_to_ntd (v : JVal) : Except PyExc (Option Int) :=
  match v with
  | .jnull => .ok none
  | _ =>
    let s := (stripPy (pyStr v).data).filter (fun c => !(c = ','))
    if s.isEmpty then .ok none
    else if s.any (fun c => c = '萬') then
      match floatOfString (String.mk (s.filter (fun c => !(c = '萬')))) with
      | .error _ => .ok none
      | .ok f =>
        match pyRound (f.mulPosNat 10000) with
        | .ok n => .ok (some n)
        | .error .valueError => .ok none
        | .error e => .error e
    else
      match runsOf numTokChar s with
      | [] => .ok none
      | t :: _ =>
        match floatOfString (String.mk t) with
        | .error _ => .ok none
        | .ok f =>
          match pyTruncF f with
          | .ok n => .ok (some n)
          | .error .valueError => .ok none
          | .error e => .error e

/-- Remove every occurrence of the pattern `pat` from the list (Python
`s.replace(pat, '')`), scanning left to right. -/
def removeSubF (pat : List Char) : Nat → List Char → List Char
  | 0, l => l
  | _ + 1, [] => []
  | fuel + 1, c :: rest =>
    if pat ≠ [] ∧ pat.isPrefixOf (c :: rest) then
      removeSubF pat fuel (List.drop pat.length (c :: rest))
    else c :: removeSubF pat fuel rest

/-- Remove every occurrence of the pattern with fuel equal to the input
length, which always suffices since every step consumes at least one
character. -/
def removeSub (pat : List Char) (l : List Char) : List Char :=
  removeSubF pat l.length l

/-- Model of `parse_mileage_to_km`: like the price parser after removing
the unit suffixes `公里`, `KM`, `km`; shares the uncaught-`OverflowError`
path of the myriad branch. -/
def parse_mileage_to_km (v : JVal) : Except PyExc (Option Int) :=
  match v with
  | .jnull => .ok none
  | _ =>
    let s0 := (stripPy (pyStr v).data).filter (fun c => !(c = ','))
    let s := removeSub ['k', 'm'] (removeSub ['K', 'M'] (removeSub ['公', '里'] s0))
    if s.isEmpty then .ok none
    else if s.any (fun c => c = '萬') then
      match floatOfString (String.mk (s.filter (fun c => !(c = '萬')))) with
      | .error _ => .ok none
      | .ok f =>
        match pyRound (f.mulPosNat 10000) with
        | .ok n => .ok (some n)
        | .error .valueError => .ok none
        | .error e => .error e
    else
      match runsOf numTokChar s with
      | [] => .ok none
      | t :: _ =>
        match floatOfString (String.mk t) with
        | .error _ => .ok none
        | .ok f =>
          match pyTruncF f with
          | .ok n => .ok (some n)
          | .error .valueError => .ok none
          | .error e => .error e

/-- The canonical record shape produced by `normalize_item` (the CSV column
set).  `item_id` and the view counters hold the raw source values
verbatim, exactly as the dict literal in the source does. -/
structure Row where
  item_id : JVal
  brand : String
  series : String
  model : String
  year : Option Int
  mileage_km : Option Int
  price_ntd : Option Int
  region : String
  color : String
  fuel : String
  transmission : String
  post_at : String
  renew_at : String
  views_today : JVal
  views_total : JVal
  title : String
  sub_title : String
  image : String
  big_image : String

/-- Model of `normalize_item` on the fields of one raw record dict.  The
year is computed first, then price, then mileage (so a price-parser
exception wins over a mileage one, matching source order); an escaping
exception propagates. -/
def normalize_item (fs : List (String × JVal)) : Except PyExc Row := do
  let year := parse_year [dictGetD fs "makeYear", dictGetD fs "yearType"]
  let price_ntd ← parse_price_to_ntd (dictGetD fs "price")
  let mileage_km ← parse_mileage_to_km (dictGetD fs "mileage")
  pure {
    item_id := dictGetD fs "itemId"
    brand := clean_text (dictGetD fs "brandEnName")
    series := clean_text (dictGetD fs "kindEnName")
    model := clean_text (dictGetD fs "modelEnName")
    year := year
    mileage_km := mileage_km
    price_ntd := price_ntd
    region := clean_text (dictGetD fs "region")
    color := clean_text (dictGetD fs "color")
    fuel := clean_text (dictGetD fs "gas")
    transmission := clean_text (dictGetD fs "tab")
    post_at := clean_text (dictGetD fs "itemPostDate")
    renew_at := clean_text (dictGetD fs "itemRenewDate")
    views_today := dictGetD fs "dayViewNum"
    views_total := dictGetD fs "totalViewNum"
    title := clean_text (dictGetD fs "title")
    sub_title := clean_text (dictGetD fs "subTitle")
    image := clean_text (dictGetD fs "image")
    big_image := clean_text (dictGetD fs "bigImage") }

/-- Normalization of an arbitrary item value: a non-dict raises
`AttributeError` at the first `.get` call (unreachable in `run`, which
coerces the identifier first and a non-dict fails that coercion). -/
def normalizeItemV : JVal → Except PyExc Row
  | .jobj fs => normalize_item fs
  | _ => .error .attributeError

/-- View a value as a Python list, as `isinstance(x, list)` guards do. -/
def asList : JVal → Option (List JVal)
  | .jarr l => some l
  | _ => none

/-- First key of `keys` (in order) whose value in the dict is a list; the
`for key in (...)` / `break` search of the extractor. -/
def findListKey (fs : List (String × JVal)) (keys : List String) : Option (List JVal) :=
  keys.findSome? (fun k => asList (dictGetD fs k))

/-- Key priority order used inside the nested `data` envelope. -/
def nestedKeys : List String := ["items", "list", "results", "listings"]

/-- Key priority order used on the top-level mapping: the nested order with
`data` inserted after `list`. -/
def topKeys : List String := ["items", "list", "data", "results", "listings"]

/-- The item-extraction logic of `run` (and `test_single_request`): search
the nested mapping under `data` with `nestedKeys`; if that finds nothing,
search the top level with `topKeys`; a bare top-level list is used
directly; anything else yields nothing. -/
def extract_items : JVal → Option (List JVal)
  | .jobj fs =>
    let fromNested :=
      match dictGetD fs "data" with
      | .jobj innerFs => findListKey innerFs nestedKeys
      | _ => none
    match fromNested with
    | some l => some l
    | none => findListKey fs topKeys
  | .jarr l => some l
  | _ => none

/-- The extractor as claimed: phase (b) searches the top level with the
SAME key list as phase (a).  Differs from the source, whose top-level
search also tries the envelope key `data`. -/
def itemsClaimSearch : JVal → Option (List JVal)
  | .jobj fs =>
    let fromNested :=
      match dictGetD fs "data" with
      | .jobj innerFs => findListKey innerFs nestedKeys
      | _ => none
    match fromNested with
    | some l => some l
    | none => findListKey fs nestedKeys
  | .jarr l => some l
  | _ => none

/-- The extractor as amended: phase (b) searches the top level with the
phase-(a) keys plus the envelope key `data` inserted after `list`. -/
def itemsAmendedSearch : JVal → Option (List JVal)
  | .jobj fs =>
    let fromNested :=
      match dictGetD fs "data" with
      | .jobj innerFs => findListKey innerFs nestedKeys
      | _ => none
    match fromNested with
    | some l => some l
    | none => findListKey fs ["items", "list", "data", "results", "listings"]
  | .jarr l => some l
  | _ => none

/-- Terminal states of the per-task crawl loop. -/
inductive StopReason where
  | fixedDone
  | capStop
  | errorStop
  | emptyStop
  | unchangedStop
  | crash (e : PyExc)
  | outOfFuel
  deriving DecidableEq

/-- Observable per-task events: one entry per `fetch_page` call (with the
outcome of that page) and one entry for the partition-store batch
append. -/
inductive Ev where
  | fetchFail (page : Nat)
  | fetchEmpty (page : Nat)
  | fetchPage (page itemCount newCount : Nat)
  | fetchCrash (page : Nat)
  | appendEv (rows : List Row)

/-- Discriminator for the append event. -/
def Ev.isAppend : Ev → Bool
  | .appendEv _ => true
  | _ => false

/-- New-row count recorded in a processed-page event (0 otherwise). -/
def Ev.newCount : Ev → Nat
  | .fetchPage _ _ n => n
  | _ => 0

/-- Whether the event is a fully processed (non-empty, non-failing,
non-crashing) page fetch. -/
def Ev.isProcessed : Ev → Bool
  | .fetchPage _ _ _ => true
  | _ => false

/-- Result of the crawl loop for one task: the collected new rows, the
final dedup-ledger contents, the fetch log, and why the loop stopped. -/
structure LoopOut where
  rows : List Row
  ids : List Int
  log : List Ev
  reason : StopReason

/-- The raw identifier field value of an item (`it.get("itemId")`); a
non-dict is folded to `None` since its `.get` raises before producing a
value. -/
def rawIdOf : JVal → JVal
  | .jobj fs => dictGetD fs "itemId"
  | _ => .jnull

/-- Identifier coercion `int(it.get("itemId"))` under the bare
`try`/`except` of `run`: `none` models any caught exception (absent field,
non-dict item, unparseable value). -/
def itemIdOf (it : JVal) : Option Int :=
  pyIntCoerce (rawIdOf it)

/-- The per-item loop body over one page: skip items whose identifier
coercion fails or is already in the ledger, otherwise normalize, append
the row and record the identifier.  A normalization exception aborts (and
propagates out of `run`). -/
def processItems : List JVal → List Int → List Row → Except PyExc (List Int × List Row)
  | [], ids, acc => .ok (ids, acc)
  | it :: rest, ids, acc =>
    match itemIdOf it with
    | none => processItems rest ids acc
    | some n =>
      if n ∈ ids then processItems rest ids acc
      else
        match normalizeItemV it with
        | .error e => .error e
        | .ok row => processItems rest (n :: ids) (acc ++ [row])

/-- The `while True` crawl loop of `run` for one task, with explicit fuel
(the loop provably terminates within `taskFuel`).  Guards in source
order: fixed-mode page budget, auto-mode safety cap, fetch failure,
empty extraction (`if not items`), then per-item processing and the
unchanged-page early stop. -/
def crawlLoop (auto stopUnch : Bool) (maxPages tpages : Nat)
    (upstream : Nat → Option JVal) :
    Nat → Nat → Nat → List Int → List Row → LoopOut
  | 0, _, _, ids, rows => ⟨rows, ids, [], .outOfFuel⟩
  | fuel + 1, page, fetched, ids, rows =>
    if auto = false ∧ tpages < page then ⟨rows, ids, [], .fixedDone⟩
    else if auto = true ∧ maxPages ≤ fetched then ⟨rows, ids, [], .capStop⟩
    else
      match upstream page with
      | none => ⟨rows, ids, [.fetchFail page], .errorStop⟩
      | some data =>
        match extract_items data with
        | none => ⟨rows, ids, [.fetchEmpty page], .emptyStop⟩
        | some [] => ⟨rows, ids, [.fetchEmpty page], .emptyStop⟩
        | some (it0 :: restItems) =>
          match processItems (it0 :: restItems) ids [] with
          | .error e => ⟨rows, ids, [.fetchCrash page], .crash e⟩
          | .ok (ids', newRows) =>
            let entry := Ev.fetchPage page (it0 :: restItems).length newRows.length
            if auto = true ∧ stopUnch = true ∧ newRows.length = 0 then
              ⟨rows ++ newRows, ids', [entry], .unchangedStop⟩
            else
              let r := crawlLoop auto stopUnch maxPages tpages upstream fuel
                (page + 1) (fetched + 1) ids' (rows ++ newRows)
              ⟨r.rows, r.ids, entry :: r.log, r.reason⟩

/-- CSV cell written for a value by `csv.DictWriter`: `None` becomes the
empty cell, everything else its `str()`.  The `encode('utf-8',
'ignore').decode('utf-8')` cleanup in `append_rows` is the identity on
well-formed text, and the `csv` module round-trips cell text exactly. -/
def pyStrCell : JVal → String
  | .jnull => ""
  | v => pyStr v

/-- Model of `load_existing_ids`: rehydrate the dedup ledger by parsing the
`item_id` cell of every persisted row with `int(...)`, silently skipping
rows whose cell does not parse (`except Exception: continue`). -/
def loadExistingIds (rows : List Row) : List Int :=
  rows.filterMap (fun r => pyIntString (pyStrCell r.item_id))

/-- Fuel sufficient for the crawl loop: one frame per possible fetch plus
the final guard check. -/
def taskFuel (auto : Bool) (maxPages tpages : Nat) : Nat :=
  (if auto then maxPages else tpages) + 1

/-- Result of one task run: the partition store's row content after the
run, the observable event list, and the loop result. -/
structure TaskOut where
  csv : List Row
  events : List Ev
  loopOut : LoopOut

/-- One task of `run`: rehydrate the ledger from the partition store, run
the crawl loop, and — unless the loop crashed, in which case the
exception propagates before any store write — append the collected batch
as one write, or write nothing when the batch is empty.  (`ensure_csv`
only creates the header of a missing file and touches no row content.) -/
def runTask (auto stopUnch : Bool) (maxPages tpages : Nat)
    (upstream : Nat → Option JVal) (csv : List Row) : TaskOut :=
  let ids := loadExistingIds csv
  let out := crawlLoop auto stopUnch maxPages tpages upstream
    (taskFuel auto maxPages tpages) 1 0 ids []
  match out.reason with
  | .crash _ => ⟨csv, out.log, out⟩
  | _ =>
    if out.rows.isEmpty then ⟨csv, out.log, out⟩
    else ⟨csv ++ out.rows, out.log ++ [.appendEv out.rows], out⟩

/-- An item's identifier survives the store round trip: if the coercion
used for dedup yields `n`, then re-parsing the persisted cell text of the
raw identifier value also yields `n`.  JSON integer identifiers always
satisfy this; booleans and floats do not. -/
def idRoundTrips (it : JVal) : Prop :=
  ∀ n : Int, itemIdOf it = some n → pyIntString (pyStrCell (rawIdOf it)) = some n

/-- Every item on every page of the upstream satisfies `idRoundTrips`. -/
def upRoundTrips (upstream : Nat → Option JVal) : Prop :=
  ∀ p d, upstream p = some d → ∀ l, extract_items d = some l →
    ∀ it ∈ l, idRoundTrips it

/-- The ledger `ids` covers page `p` of the upstream: every coercible item
identifier on that page is already present. -/
def covered (upstream : Nat → Option JVal) (ids : List Int) (p : Nat) : Prop :=
  ∀ d, upstream p = some d → ∀ l, extract_items d = some l →
    ∀ it ∈ l, ∀ n : Int, itemIdOf it = some n → n ∈ ids

/-- Discriminator for the crash reason (an uncaught normalization
exception propagating out of the loop). -/
def StopReason.isCrash : StopReason → Bool
  | .crash _ => true
  | _ => false

/-- Discriminator for JSON integer values. -/
def JVal.isIntVal : JVal → Bool
  | .jint _ => true
  | _ => false

/-- A page's items can all be handled without an escaping exception:
each item either fails identifier coercion (and is skipped) or
normalizes successfully. -/
def safeItems (l : List JVal) : Prop :=
  ∀ it ∈ l, itemIdOf it = none ∨ ∃ row, normalizeItemV it = .ok row

/-- Page `p` of the upstream fetches successfully, extracts a non-empty
item list, and processes without an escaping exception. -/
def goodPage (upstream : Nat → Option JVal) (p : Nat) : Prop :=
  ∃ d, upstream p = some d ∧
    ∃ it0 rest, extract_items d = some (it0 :: rest) ∧ safeItems (it0 :: rest)

/-- Test upstream: page `p` carries one fresh record with the JSON integer
identifier `p`. -/
def upstreamFresh : Nat → Option JVal := fun p =>
  some (JVal.jobj [("items", JVal.jarr [JVal.jobj [("itemId", JVal.jint p)]])])

/-- Test upstream: every page extracts an empty item list. -/
def upstreamEmptyPages : Nat → Option JVal := fun _ =>
  some (JVal.jobj [("items", JVal.jarr [])])

/-- Test upstream: every page carries the same single record whose
identifier field is the JSON boolean `true` (coercible via Python's
`int(True) == 1`, but persisted as the cell text `True`). -/
def upstreamBoolId : Nat → Option JVal := fun _ =>
  some (JVal.jobj [("items", JVal.jarr [JVal.jobj [("itemId", JVal.jbool true)]])])

/-- Test upstream: every page carries the same single record with the JSON
integer identifier 5. -/
def upstreamConstId : Nat → Option JVal := fun _ =>
  some (JVal.jobj [("items", JVal.jarr [JVal.jobj [("itemId", JVal.jint 5)]])])

/-! ### General lemmas about the embedded task runner -/

/-- The loop output recorded in a task result is exactly the crawl loop's
output, whatever the append decision was. -/
theorem runTask_loopOut (auto stopUnch : Bool) (mp tp : Nat)
    (up : Nat → Option JVal) (csv : List Row) :
    (runTask auto stopUnch mp tp up csv).loopOut =
      crawlLoop auto stopUnch mp tp up (taskFuel auto mp tp) 1 0
        (loadExistingIds csv) [] := by
  simp only [runTask]
  split
  · rfl
  · split <;> rfl

/-- A task run either leaves the store's rows unchanged, or appends exactly
the nonempty collected batch of a non-crashed loop. -/
theorem runTask_csv_cases (auto stopUnch : Bool) (mp tp : Nat)
    (up : Nat → Option JVal) (csv : List Row) :
    (runTask auto stopUnch mp tp up csv).csv = csv ∨
      ((runTask auto stopUnch mp tp up csv).csv =
          csv ++ (runTask auto stopUnch mp tp up csv).loopOut.rows ∧
        (runTask auto stopUnch mp tp up csv).loopOut.rows ≠ [] ∧
        ∀ e, (runTask auto stopUnch mp tp up csv).loopOut.reason ≠ .crash e) := by
  simp only [runTask]
  split
  · exact Or.inl rfl
  · rename_i hne
    split
    · exact Or.inl rfl
    · rename_i hrows
      refine Or.inr ⟨rfl, ?_, ?_⟩
      · simpa [List.isEmpty_iff] using hrows
      · intro e he
        exact hne e he

/-! ### C8: normalization is claimed never to raise -/

/-- C8 (refuted; the code is at fault): the claim says `normalize_item`
never raises and every field parser turns unparseable input into an
absent value.  The price parser's myriad branch guards
`int(round(float(s) * 10000))` only with `except ValueError`; for the
record `{"price": "inf萬"}` the inner `float` yields infinity, `round`
raises `OverflowError`, and the exception escapes `normalize_item`
(and would escape `run`).  The parser does return an absent value for
ordinary junk such as `"abc萬"`, and `nan` is caught as `ValueError`,
which shows the surviving overflow path is an oversight. -/
theorem c8_normalize_overflow_crash :
    normalizeItemV (JVal.jobj [("price", JVal.jstr "inf萬")]) =
      .error .overflowError ∧
    parse_price_to_ntd (JVal.jstr "inf萬") = .error .overflowError ∧
    parse_mileage_to_km (JVal.jstr "inf萬") = .error .overflowError ∧
    parse_price_to_ntd (JVal.jstr "abc萬") = .ok none ∧
    parse_price_to_ntd (JVal.jstr "nan萬") = .ok none := by
  refine ⟨rfl, rfl, rfl, rfl, rfl⟩

/-! ### C9: myriad unit and separator handling -/

/-- C9 (confirmed): the myriad (萬) unit multiplies by 10000 with rounding
to the nearest integer, and thousands separators and mileage unit
suffixes are stripped before the numeric token is extracted:
`parse_price_to_ntd("11.5萬") = 115000` and
`parse_mileage_to_km("123,456 KM") = 123456`. -/
theorem c9_numeric_parsing :
    parse_price_to_ntd (JVal.jstr "11.5萬") = .ok (some 115000) ∧
    parse_mileage_to_km (JVal.jstr "123,456 KM") = .ok (some 123456) := by
  exact ⟨rfl, rfl⟩

/-! ### C3: the response extractor's ordered search -/

/-- C3 counterexample: the claimed search — phase (b) over the top-level
mapping with "the same known list-valued keys" as phase (a) — disagrees
with the source on the body `{"data": [...]}`: the source's top-level key
tuple additionally contains the envelope key `data`, so the source
extracts the list while the claimed search extracts nothing. -/
theorem c3_counterexample :
    extract_items (JVal.jobj [("data", JVal.jarr [JVal.jnull])]) ≠
      itemsClaimSearch (JVal.jobj [("data", JVal.jarr [JVal.jnull])]) := by
  intro h
  have h1 : extract_items (JVal.jobj [("data", JVal.jarr [JVal.jnull])]) =
      some [JVal.jnull] := rfl
  have h2 : itemsClaimSearch (JVal.jobj [("data", JVal.jarr [JVal.jnull])]) =
      none := rfl
  exact Option.some_ne_none _ (h1.symm.trans (h.trans h2))

/-- C3 (corrected): the extractor performs the ordered search with first
match winning — (a) the nested mapping under `data` with keys
`items, list, results, listings`; (b) the top-level mapping with the same
keys plus `data` inserted after `list` (this is the amendment); (c) a bare
top-level list.  The four example bodies all extract the identical list,
and an extracted empty list is the empty-page stop signal of the crawl
loop (reason `emptyStop`), not an error. -/
theorem c3_extractor_search (v : JVal) (l : List JVal) :
    extract_items v = itemsAmendedSearch v ∧
    extract_items (JVal.jobj [("data", JVal.jobj [("items", JVal.jarr l)])]) = some l ∧
    extract_items (JVal.jobj [("items", JVal.jarr l)]) = some l ∧
    extract_items (JVal.jobj [("list", JVal.jarr l)]) = some l ∧
    extract_items (JVal.jarr l) = some l ∧
    extract_items (JVal.jobj [("data", JVal.jobj [("items", JVal.jarr [])])]) = some [] ∧
    (crawlLoop false false 0 5
        (fun _ => some (JVal.jobj [("data", JVal.jobj [("items", JVal.jarr [])])]))
        6 1 0 [] []).reason = .emptyStop := by
  refine ⟨?_, rfl, rfl, rfl, rfl, rfl, rfl⟩
  cases v <;> rfl

/-! ### Loop invariants -/

/-- The crawl loop itself never emits a store append event: its log
consists of fetch outcomes only. -/
theorem crawlLoop_log_no_append (auto stopUnch : Bool) (mp tp : Nat)
    (up : Nat → Option JVal) :
    ∀ fuel page fetched ids rows,
      ((crawlLoop auto stopUnch mp tp up fuel page fetched ids rows).log.all
        (fun e => !e.isAppend)) = true := by
  intro fuel
  induction fuel with
  | zero => intro page fetched ids rows; rfl
  | succ fuel ih =>
    intro page fetched ids rows
    simp only [crawlLoop]
    repeat' split
    all_goals try rfl
    simp only [List.all_cons, Ev.isAppend, Bool.not_false, Bool.true_and]
    exact ih _ _ _ _

/-- In open-ended mode the number of fetches the loop performs from a
state with `fetched` already-processed pages is bounded by the remaining
budget of the safety cap. -/
theorem crawlLoop_auto_log_len (stopUnch : Bool) (mp tp : Nat)
    (up : Nat → Option JVal) :
    ∀ fuel page fetched ids rows,
      (crawlLoop true stopUnch mp tp up fuel page fetched ids rows).log.length ≤
        mp - fetched := by
  intro fuel
  induction fuel with
  | zero =>
    intro page fetched ids rows
    simp [crawlLoop]
  | succ fuel ih =>
    intro page fetched ids rows
    simp only [crawlLoop]
    split
    · simp
    split
    · simp
    rename_i h1 h2
    simp only [eq_self_iff_true, true_and] at h2
    repeat' split
    all_goals simp only [List.length_nil, List.length_cons, List.length_singleton]
    all_goals try omega
    rename_i ids' newRows heqp hcond
    have h := ih (page + 1) (fetched + 1) ids' (rows ++ newRows)
    omega

/-! ### C5: the open-ended safety cap -/

/-- C5 (confirmed): in open-ended mode at most `mp` pages are ever fetched
for one task, whatever the upstream does; and concretely with cap 3 and
an upstream of always-fresh non-empty pages, exactly 3 pages are fetched
and the loop terminates through the cap. -/
theorem c5_safety_cap (stopUnch : Bool) (mp tp : Nat)
    (up : Nat → Option JVal) (csv : List Row) :
    (runTask true stopUnch mp tp up csv).loopOut.log.length ≤ mp ∧
    (runTask true true 3 0 upstreamFresh []).loopOut.log.length = 3 ∧
    (runTask true true 3 0 upstreamFresh []).loopOut.reason = .capStop := by
  refine ⟨?_, rfl, rfl⟩
  rw [runTask_loopOut]
  have h := crawlLoop_auto_log_len stopUnch mp tp up (taskFuel true mp tp) 1 0
    (loadExistingIds csv) []
  omega

/-! ### C6: the unchanged-page stop -/

/-- With open-ended mode and unchanged-stop both active, every fetch-log
entry that is followed by a further fetch is a processed page that
contributed at least one new row. -/
theorem crawlLoop_mid_pages_new (mp tp : Nat) (up : Nat → Option JVal) :
    ∀ fuel page fetched ids rows,
      ((crawlLoop true true mp tp up fuel page fetched ids rows).log.dropLast.all
        (fun e => e.isProcessed && decide (0 < e.newCount))) = true := by
  intro fuel
  induction fuel with
  | zero => intro page fetched ids rows; rfl
  | succ fuel ih =>
    intro page fetched ids rows
    simp only [crawlLoop]
    repeat' split
    all_goals try rfl
    rename_i ids' newRows heqp hcond
    have h := ih (page + 1) (fetched + 1) ids' (rows ++ newRows)
    cases hlog : (crawlLoop true true mp tp up fuel (page + 1) (fetched + 1) ids'
        (rows ++ newRows)).log with
    | nil => rfl
    | cons a as =>
      rw [hlog] at h
      simp only [hlog, List.dropLast_cons₂, List.all_cons, h, Bool.and_true]
      simp only [eq_self_iff_true, true_and] at hcond
      simp [Ev.isProcessed, Ev.newCount, Nat.pos_of_ne_zero hcond]

/-- C6 (confirmed): with unchanged-stop enabled in open-ended mode, a
fetched page that contributes zero new records is never followed by
another fetch — it is the last entry of the fetch log (and the concrete
scenario: an upstream repeating the same record stops after its second
page with reason `unchangedStop`). -/
theorem c6_unchanged_stop (mp tp : Nat) (up : Nat → Option JVal) (csv : List Row) :
    ((runTask true true mp tp up csv).loopOut.log.dropLast.all
      (fun e => e.isProcessed && decide (0 < e.newCount))) = true ∧
    (runTask true true 10 0 upstreamConstId []).loopOut.log.length = 2 ∧
    (runTask true true 10 0 upstreamConstId []).loopOut.reason = .unchangedStop := by
  refine ⟨?_, rfl, rfl⟩
  rw [runTask_loopOut]
  exact crawlLoop_mid_pages_new mp tp up _ 1 0 (loadExistingIds csv) []

/-! ### C7: a single batch append after the loop -/

/-- A stop reason that is none of the crash reasons is not `isCrash`. -/
theorem isCrash_false_of_ne (r : StopReason) (h : ∀ e, r ≠ .crash e) :
    r.isCrash = false := by
  cases r <;> first | rfl | exact absurd rfl (h _)

/-- Characterization of a task's event list: the loop's fetch log,
followed by exactly one append event when the batch is nonempty and the
loop did not crash, and by nothing otherwise. -/
theorem runTask_events (auto stopUnch : Bool) (mp tp : Nat)
    (up : Nat → Option JVal) (csv : List Row) :
    (runTask auto stopUnch mp tp up csv).events =
      (runTask auto stopUnch mp tp up csv).loopOut.log ++
        (if (runTask auto stopUnch mp tp up csv).loopOut.rows.isEmpty ||
            (runTask auto stopUnch mp tp up csv).loopOut.reason.isCrash then []
         else [Ev.appendEv (runTask auto stopUnch mp tp up csv).loopOut.rows]) := by
  simp only [runTask]
  split
  · rename_i e he
    simp [he, StopReason.isCrash]
  · rename_i hne
    have hc := isCrash_false_of_ne _ (fun e he => hne e he)
    split
    · rename_i hrows
      simp [hrows]
    · rename_i hrows
      simp [hc, hrows]

/-- Characterization of a task's effect on the partition store rows. -/
theorem runTask_csv_eq (auto stopUnch : Bool) (mp tp : Nat)
    (up : Nat → Option JVal) (csv : List Row) :
    (runTask auto stopUnch mp tp up csv).csv =
      (if (runTask auto stopUnch mp tp up csv).loopOut.rows.isEmpty ||
          (runTask auto stopUnch mp tp up csv).loopOut.reason.isCrash then csv
       else csv ++ (runTask auto stopUnch mp tp up csv).loopOut.rows) := by
  simp only [runTask]
  split
  · rename_i e he
    simp [he, StopReason.isCrash]
  · rename_i hne
    have hc := isCrash_false_of_ne _ (fun e he => hne e he)
    split
    · rename_i hrows
      simp [hrows]
    · rename_i hrows
      simp [hc, hrows]

/-- C7 (confirmed): during the crawl loop no store write event occurs (the
fetch log contains no append); the task's whole event list is the fetch
log followed by at most one append, which happens exactly when the
collected batch is nonempty and the loop did not crash; and the store's
row content is either untouched or extended by that single batch — so a
run terminated anywhere inside the loop leaves the store rows exactly as
they were. -/
theorem c7_single_batch_append (auto stopUnch : Bool) (mp tp : Nat)
    (up : Nat → Option JVal) (csv : List Row) :
    ((runTask auto stopUnch mp tp up csv).loopOut.log.all
      (fun e => !e.isAppend) = true) ∧
    ((runTask auto stopUnch mp tp up csv).events =
      (runTask auto stopUnch mp tp up csv).loopOut.log ++
        (if (runTask auto stopUnch mp tp up csv).loopOut.rows.isEmpty ||
            (runTask auto stopUnch mp tp up csv).loopOut.reason.isCrash then []
         else [Ev.appendEv (runTask auto stopUnch mp tp up csv).loopOut.rows])) ∧
    ((runTask auto stopUnch mp tp up csv).csv =
      (if (runTask auto stopUnch mp tp up csv).loopOut.rows.isEmpty ||
          (runTask auto stopUnch mp tp up csv).loopOut.reason.isCrash then csv
       else csv ++ (runTask auto stopUnch mp tp up csv).loopOut.rows)) := by
  refine ⟨?_, runTask_events auto stopUnch mp tp up csv,
    runTask_csv_eq auto stopUnch mp tp up csv⟩
  rw [runTask_loopOut]
  exact crawlLoop_log_no_append auto stopUnch mp tp up _ 1 0 _ []

/-! ### C4: identifiers of persisted rows -/

/-- The normalizer stores the raw identifier field value verbatim in the
produced row. -/
theorem normalize_item_id (fs : List (String × JVal)) (row : Row)
    (h : normalize_item fs = .ok row) : row.item_id = dictGetD fs "itemId" := by
  simp only [normalize_item, bind, Except.bind] at h
  cases hp : parse_price_to_ntd (dictGetD fs "price") with
  | error e => rw [hp] at h; cases h
  | ok p =>
    rw [hp] at h
    cases hm : parse_mileage_to_km (dictGetD fs "mileage") with
    | error e => rw [hm] at h; cases h
    | ok m =>
      rw [hm] at h
      simp only [pure, Except.pure, Except.ok.injEq] at h
      rw [← h]

/-- Every row produced by the per-item loop body (beyond those already in
the accumulator) has a raw identifier value whose integer coercion
succeeds. -/
theorem processItems_rows_coercible :
    ∀ (l : List JVal) (ids : List Int) (acc : List Row) (ids' : List Int)
      (rows' : List Row),
      processItems l ids acc = .ok (ids', rows') →
      acc.all (fun row => (pyIntCoerce row.item_id).isSome) = true →
      rows'.all (fun row => (pyIntCoerce row.item_id).isSome) = true := by
  intro l
  induction l with
  | nil =>
    intro ids acc ids' rows' h hacc
    simp only [processItems, Except.ok.injEq, Prod.mk.injEq] at h
    rw [← h.2]
    exact hacc
  | cons it rest ih =>
    intro ids acc ids' rows' h hacc
    cases hid : itemIdOf it with
    | none =>
      simp only [processItems, hid] at h
      exact ih _ _ _ _ h hacc
    | some n =>
      simp only [processItems, hid] at h
      by_cases hm : n ∈ ids
      · rw [if_pos hm] at h
        exact ih _ _ _ _ h hacc
      · rw [if_neg hm] at h
        cases hn : normalizeItemV it with
        | error e => rw [hn] at h; cases h
        | ok row =>
          rw [hn] at h
          refine ih _ _ _ _ h ?_
          have hrow : (pyIntCoerce row.item_id).isSome = true := by
            cases it with
            | jobj fs =>
              have hraw := normalize_item_id fs row hn
              have hcoer : pyIntCoerce (dictGetD fs "itemId") = some n := hid
              rw [hraw, hcoer]
              rfl
            | jnull => cases hn
            | jbool b => cases hn
            | jint k => cases hn
            | jfloat q => cases hn
            | jstr s => cases hn
            | jarr xs => cases hn
          simp [List.all_append, hacc, hrow]

/-- Loop-level version: all collected rows have coercible identifiers. -/
theorem crawlLoop_rows_coercible (auto stopUnch : Bool) (mp tp : Nat)
    (up : Nat → Option JVal) :
    ∀ fuel page fetched ids rows,
      rows.all (fun row => (pyIntCoerce row.item_id).isSome) = true →
      ((crawlLoop auto stopUnch mp tp up fuel page fetched ids rows).rows.all
        (fun row => (pyIntCoerce row.item_id).isSome)) = true := by
  intro fuel
  induction fuel with
  | zero => intro page fetched ids rows hrows; exact hrows
  | succ fuel ih =>
    intro page fetched ids rows hrows
    simp only [crawlLoop]
    repeat' split
    all_goals try exact hrows
    · rename_i ids' newRows heqp hcond
      have hnew := processItems_rows_coercible _ _ _ _ _ heqp rfl
      simp [List.all_append, hrows, hnew]
    · rename_i ids' newRows heqp hcond
      refine ih _ _ _ _ ?_
      have hnew := processItems_rows_coercible _ _ _ _ _ heqp rfl
      simp [List.all_append, hrows, hnew]

/-- C4 counterexample: with an upstream whose record has the JSON boolean
`true` as identifier, the record is accepted (its coercion is the
integer 1) but the persisted row's identifier is the raw boolean value —
its cell text is `True`, not the integer text `1` — so the persisted
identifier is not "an integer, the integer coercion of the raw field". -/
theorem c4_counterexample :
    ((runTask true true 2 0 upstreamBoolId []).loopOut.rows.all
      (fun row => row.item_id.isIntVal)) = false ∧
    ((runTask true true 2 0 upstreamBoolId []).csv.map
      (fun row => pyStrCell row.item_id)) = ["True"] ∧
    pyIntCoerce (JVal.jbool true) = some 1 ∧
    intRepr 1 = "1" := by
  exact ⟨rfl, rfl, rfl, rfl⟩

/-- C4 (corrected): a raw record is persisted only if the integer coercion
of its identifier field succeeds (absent or uncoercible identifiers are
skipped before normalization), and the persisted row carries the raw
identifier field value verbatim — which coerces to an integer but need
not be one. -/
theorem c4_persisted_identifiers (auto stopUnch : Bool) (mp tp : Nat)
    (up : Nat → Option JVal) (csv : List Row) :
    ((runTask auto stopUnch mp tp up csv).loopOut.rows.all
      (fun row => (pyIntCoerce row.item_id).isSome)) = true ∧
    (∀ fs row, normalize_item fs = .ok row → row.item_id = dictGetD fs "itemId") := by
  refine ⟨?_, fun fs row h => normalize_item_id fs row h⟩
  rw [runTask_loopOut]
  exact crawlLoop_rows_coercible auto stopUnch mp tp up _ 1 0 _ [] rfl

/-- Witness for the hypothesis-bearing part of `c4_persisted_identifiers`:
at the concrete record `{"itemId": 7}` the normalizer stores the raw
value `7` as the row identifier. -/
theorem c4_persisted_identifiers_witness :
    (Row.item_id
        (match normalize_item [("itemId", JVal.jint 7)] with
          | .ok row => row
          | .error _ => {
              item_id := JVal.jnull, brand := "", series := "", model := "",
              year := none, mileage_km := none, price_ntd := none, region := "",
              color := "", fuel := "", transmission := "", post_at := "",
              renew_at := "", views_today := JVal.jnull, views_total := JVal.jnull,
              title := "", sub_title := "", image := "", big_image := "" })) =
      dictGetD [("itemId", JVal.jint 7)] "itemId" := by
  exact (c4_persisted_identifiers true true 1 1 upstreamConstId []).2
    [("itemId", JVal.jint 7)] _ rfl

/-! ### C2: fixed-page mode -/

/-- A page whose items are all safely processable yields a successful
per-item pass from any ledger state. -/
theorem processItems_safe_ok :
    ∀ (l : List JVal), safeItems l → ∀ ids acc,
      ∃ r, processItems l ids acc = .ok r := by
  intro l
  induction l with
  | nil => intro _ ids acc; exact ⟨(ids, acc), rfl⟩
  | cons it rest ih =>
    intro h ids acc
    have hit := h it (by simp)
    have hrest : safeItems rest := fun x hx => h x (by simp [hx])
    cases hid : itemIdOf it with
    | none =>
      simp only [processItems, hid]
      exact ih hrest ids acc
    | some n =>
      simp only [processItems, hid]
      by_cases hm : n ∈ ids
      · rw [if_pos hm]; exact ih hrest ids acc
      · rw [if_neg hm]
        rcases hit with hnone | ⟨row, hrow⟩
        · rw [hid] at hnone; cases hnone
        · rw [hrow]; exact ih hrest _ _

/-- In fixed-page mode the safety-cap stop can never fire. -/
theorem crawlLoop_fixed_no_cap (stopUnch : Bool) (mp tp : Nat)
    (up : Nat → Option JVal) :
    ∀ fuel page fetched ids rows,
      (crawlLoop false stopUnch mp tp up fuel page fetched ids rows).reason ≠
        .capStop := by
  intro fuel
  induction fuel with
  | zero => intro page fetched ids rows h; cases h
  | succ fuel ih =>
    intro page fetched ids rows
    simp only [crawlLoop]
    repeat' split
    all_goals intro h
    all_goals first | exact ih _ _ _ _ h | simp_all

/-- In fixed-page mode, when every remaining page up to the budget is
good (fetches, is non-empty, processes safely), the loop performs exactly
one fetch per remaining page and ends with the page budget exhausted. -/
theorem crawlLoop_fixed_count (stopUnch : Bool) (mp tp : Nat)
    (up : Nat → Option JVal) :
    ∀ fuel page fetched ids rows,
      tp + 1 - page < fuel →
      (∀ p, page ≤ p → p ≤ tp → goodPage up p) →
      (crawlLoop false stopUnch mp tp up fuel page fetched ids rows).log.length =
          tp + 1 - page ∧
      (crawlLoop false stopUnch mp tp up fuel page fetched ids rows).reason =
          .fixedDone := by
  intro fuel
  induction fuel with
  | zero => intro page fetched ids rows hf _; omega
  | succ fuel ih =>
    intro page fetched ids rows hf hgood
    by_cases hpage : tp < page
    · have h0 : tp + 1 - page = 0 := by omega
      simp only [crawlLoop]
      split
      · exact ⟨by simp [h0], rfl⟩
      · rename_i hcond; simp at hcond; omega
    · push_neg at hpage
      obtain ⟨d, hd, it0, rest, hex, hsafe⟩ := hgood page le_rfl hpage
      obtain ⟨⟨ids', newRows⟩, hpi⟩ := processItems_safe_ok _ hsafe ids []
      have hrec := ih (page + 1) (fetched + 1) ids' (rows ++ newRows) (by omega)
        (fun p hp1 hp2 => hgood p (by omega) hp2)
      simp only [crawlLoop, hd, hex, hpi]
      split
      · rename_i hcond; simp at hcond; omega
      split
      · rename_i hcond; simp at hcond
      split
      · rename_i hcond; simp at hcond
      constructor
      · simp only [List.length_cons, hrec.1]; omega
      · exact hrec.2

/-- C2 counterexample: in fixed-page mode with a page budget of 3 and an
upstream whose first page is empty, the loop performs one fetch and stops
with the empty-page stop — not the claimed "exactly the configured page
count regardless of page emptiness". -/
theorem c2_counterexample :
    (runTask false true 0 3 upstreamEmptyPages []).loopOut.log.length = 1 ∧
    (runTask false true 0 3 upstreamEmptyPages []).loopOut.log.length ≠ 3 ∧
    (runTask false true 0 3 upstreamEmptyPages []).loopOut.reason = .emptyStop := by
  refine ⟨rfl, by decide, rfl⟩

/-- C2 (corrected): fixed-page mode does override the safety cap (the cap
stop can never fire), and when every page up to the configured count
fetches successfully, is non-empty and processes without an exception,
exactly the configured number of pages is fetched and the loop ends via
the page budget; but the empty-page stop is NOT overridden — an empty or
failing page still terminates the fixed-mode loop early. -/
theorem c2_fixed_mode (stopUnch : Bool) (mp tp : Nat)
    (up : Nat → Option JVal) (csv : List Row) :
    ((runTask false stopUnch mp tp up csv).loopOut.reason ≠ .capStop) ∧
    ((∀ p ∈ List.range tp, goodPage up (p + 1)) →
      (runTask false stopUnch mp tp up csv).loopOut.log.length = tp ∧
      (runTask false stopUnch mp tp up csv).loopOut.reason = .fixedDone) := by
  rw [runTask_loopOut]
  constructor
  · exact crawlLoop_fixed_no_cap stopUnch mp tp up _ 1 0 _ []
  · intro hgood
    have hg : ∀ p, 1 ≤ p → p ≤ tp → goodPage up p := by
      intro p hp1 hp2
      have h := hgood (p - 1) (List.mem_range.mpr (by omega))
      rwa [show p - 1 + 1 = p from by omega] at h
    have h := crawlLoop_fixed_count stopUnch mp tp up (taskFuel false mp tp) 1 0
      (loadExistingIds csv) [] (by simp [taskFuel]) hg
    exact ⟨by rw [h.1]; omega, h.2⟩

/-- Witness for `c2_fixed_mode`: a one-page budget over an upstream of
non-empty, safely processable pages fetches exactly one page and ends via
the budget. -/
theorem c2_fixed_mode_witness :
    (∀ p ∈ List.range 1, goodPage upstreamFresh (p + 1)) ∧
    ((runTask false true 0 1 upstreamFresh []).loopOut.log.length = 1 ∧
      (runTask false true 0 1 upstreamFresh []).loopOut.reason = .fixedDone) := by
  have hg : ∀ p ∈ List.range 1, goodPage upstreamFresh (p + 1) := by
    intro p hp
    refine ⟨_, rfl, _, _, rfl, ?_⟩
    intro it hit
    simp only [List.mem_singleton] at hit
    subst hit
    right
    exact ⟨_, rfl⟩
  exact ⟨hg, (c2_fixed_mode true 0 1 upstreamFresh []).2 hg⟩

/-! ### C10: invariants of the cleaned text -/

/-- Characters of the runs produced by `runsAux` come from the scanned
list or the current-run accumulator. -/
theorem runsAux_mem (p : Char → Bool) :
    ∀ (l cur w : List Char), w ∈ runsAux p l cur → ∀ c ∈ w, c ∈ l ∨ c ∈ cur := by
  intro l
  induction l with
  | nil =>
    intro cur w hw c hc
    simp only [runsAux] at hw
    split at hw
    · cases hw
    · simp only [List.mem_singleton] at hw
      subst hw
      exact Or.inr (List.mem_reverse.mp hc)
  | cons a rest ih =>
    intro cur w hw c hc
    simp only [runsAux] at hw
    split at hw
    · rcases ih (a :: cur) w hw c hc with h | h
      · exact Or.inl (List.mem_cons_of_mem a h)
      · rcases List.mem_cons.mp h with h | h
        · exact Or.inl (h ▸ List.mem_cons_self a rest)
        · exact Or.inr h
    · split at hw
      · rcases ih [] w hw c hc with h | h
        · exact Or.inl (List.mem_cons_of_mem a h)
        · cases h
      · rcases List.mem_cons.mp hw with h | h
        · subst h
          exact Or.inr (List.mem_reverse.mp hc)
        · rcases ih [] w h c hc with h2 | h2
          · exact Or.inl (List.mem_cons_of_mem a h2)
          · cases h2

/-- Characters of a joined word list are the single separating space or
come from one of the words. -/
theorem joinWords_mem :
    ∀ (ws : List (List Char)) (c : Char), c ∈ joinWords ws →
      c = ' ' ∨ ∃ w ∈ ws, c ∈ w := by
  intro ws
  induction ws with
  | nil => intro c hc; cases hc
  | cons w rest ih =>
    intro c hc
    cases rest with
    | nil =>
      rw [show joinWords [w] = w from rfl] at hc
      exact Or.inr ⟨w, by simp, hc⟩
    | cons w2 rest2 =>
      rw [show joinWords (w :: w2 :: rest2) = w ++ ' ' :: joinWords (w2 :: rest2)
        from rfl] at hc
      rcases List.mem_append.mp hc with h | h
      · exact Or.inr ⟨w, by simp, h⟩
      · rcases List.mem_cons.mp h with h | h
        · exact Or.inl h
        · rcases ih c h with h2 | ⟨w3, hw3, hc3⟩
          · exact Or.inl h2
          · exact Or.inr ⟨w3, by simp [hw3], hc3⟩

/-- Stripping only removes characters. -/
theorem stripPy_mem (l : List Char) (c : Char) (h : c ∈ stripPy l) : c ∈ l := by
  simp only [stripPy] at h
  rw [List.mem_reverse] at h
  have h2 := List.dropWhile_subset pyIsSpace h
  rw [List.mem_reverse] at h2
  exact List.dropWhile_subset pyIsSpace h2

/-- Dropping a prefix preserves the last element of a list (or empties
it). -/
theorem getLast?_dropWhile (p : Char → Bool) :
    ∀ m : List Char, m.dropWhile p = [] ∨ (m.dropWhile p).getLast? = m.getLast? := by
  intro m
  induction m with
  | nil => exact Or.inl rfl
  | cons a rest ih =>
    by_cases hp : p a
    · rw [List.dropWhile_cons_of_pos hp]
      cases hrest : rest with
      | nil => exact Or.inl rfl
      | cons b rest2 =>
        rcases ih with h | h
        · exact Or.inl (hrest ▸ h)
        · right
          rw [hrest] at h
          rw [h, List.getLast?_cons_cons]
    · rw [List.dropWhile_cons_of_neg hp]
      exact Or.inr rfl

/-- A stripped list starts and ends with a non-whitespace character (when
nonempty). -/
theorem stripPy_ends (l : List Char) :
    ((stripPy l).head?.all (fun c => !pyIsSpace c) = true) ∧
    ((stripPy l).getLast?.all (fun c => !pyIsSpace c) = true) := by
  constructor
  · simp only [stripPy]
    rw [List.head?_reverse]
    rcases getLast?_dropWhile pyIsSpace (l.dropWhile pyIsSpace).reverse with h | h
    · rw [h]; rfl
    · rw [h, List.getLast?_reverse]
      have hd := List.head?_dropWhile_not pyIsSpace l
      cases hh : (l.dropWhile pyIsSpace).head? with
      | none => rfl
      | some c =>
        rw [hh] at hd
        simp [Option.all, hd]
  · simp only [stripPy]
    rw [List.getLast?_reverse]
    have hd := List.head?_dropWhile_not pyIsSpace (l.dropWhile pyIsSpace).reverse
    cases hh : ((l.dropWhile pyIsSpace).reverse.dropWhile pyIsSpace).head? with
    | none => rfl
    | some c =>
      rw [hh] at hd
      simpa [Option.all] using hd

/-- Invariants of the core cleaning pipeline: the result contains neither
the replacement character U+FFFD nor a NUL, and neither starts nor ends
with whitespace. -/
theorem cleanTextCore_props (cs : List Char) :
    ((cleanTextCore cs).all
      (fun c => !(c = Char.ofNat 0xFFFD ∨ c = Char.ofNat 0)) = true) ∧
    ((cleanTextCore cs).head?.all (fun c => !pyIsSpace c) = true) ∧
    ((cleanTextCore cs).getLast?.all (fun c => !pyIsSpace c) = true) := by
  refine ⟨?_, (stripPy_ends _).1, (stripPy_ends _).2⟩
  rw [List.all_eq_true]
  intro c hc
  simp only [cleanTextCore] at hc
  have h4 := stripPy_mem _ _ hc
  rcases joinWords_mem _ _ h4 with h | ⟨w, hw, hcw⟩
  · subst h; decide
  · rcases runsAux_mem _ _ _ _ hw c hcw with h3 | h3
    · rcases List.mem_map.mp h3 with ⟨b, hb, hbc⟩
      by_cases h30 : b = Char.ofNat 0x3000
      · rw [if_pos h30] at hbc
        subst hbc; decide
      · rw [if_neg h30] at hbc
        subst hbc
        exact (List.mem_filter.mp hb).2
    · cases h3

/-- C10 (confirmed): for every input value — `None`, strings and
non-strings alike — `clean_text` returns a string (it is total; no
exception escapes its guarded block) that contains no U+FFFD replacement
character and no NUL, and neither starts nor ends with whitespace. -/
theorem c10_clean_text (v : JVal) :
    ((clean_text v).data.all
      (fun c => !(c = Char.ofNat 0xFFFD ∨ c = Char.ofNat 0)) = true) ∧
    ((clean_text v).data.head?.all (fun c => !pyIsSpace c) = true) ∧
    ((clean_text v).data.getLast?.all (fun c => !pyIsSpace c) = true) := by
  cases v with
  | jnull => exact ⟨rfl, rfl, rfl⟩
  | jbool b => exact cleanTextCore_props _
  | jint n => exact cleanTextCore_props _
  | jfloat q => exact cleanTextCore_props _
  | jstr s => exact cleanTextCore_props _
  | jarr xs => exact cleanTextCore_props _
  | jobj fs => exact cleanTextCore_props _

/-! ### C1: idempotence of the crawl -/

/-- The per-item pass only grows the ledger. -/
theorem processItems_ids_mono :
    ∀ (l : List JVal) (ids : List Int) (acc : List Row) (ids' : List Int)
      (rows' : List Row), processItems l ids acc = .ok (ids', rows') →
      ∀ n ∈ ids, n ∈ ids' := by
  intro l
  induction l with
  | nil =>
    intro ids acc ids' rows' h n hn
    simp only [processItems, Except.ok.injEq, Prod.mk.injEq] at h
    exact h.1 ▸ hn
  | cons it rest ih =>
    intro ids acc ids' rows' h n hn
    cases hid : itemIdOf it with
    | none =>
      simp only [processItems, hid] at h
      exact ih _ _ _ _ h n hn
    | some m =>
      simp only [processItems, hid] at h
      by_cases hm : m ∈ ids
      · rw [if_pos hm] at h
        exact ih _ _ _ _ h n hn
      · rw [if_neg hm] at h
        cases hrow : normalizeItemV it with
        | error e => rw [hrow] at h; cases h
        | ok row =>
          rw [hrow] at h
          exact ih _ _ _ _ h n (List.mem_cons_of_mem m hn)

/-- The per-item pass only appends to the collected rows. -/
theorem processItems_acc_mono :
    ∀ (l : List JVal) (ids : List Int) (acc : List Row) (ids' : List Int)
      (rows' : List Row), processItems l ids acc = .ok (ids', rows') →
      ∀ r ∈ acc, r ∈ rows' := by
  intro l
  induction l with
  | nil =>
    intro ids acc ids' rows' h r hr
    simp only [processItems, Except.ok.injEq, Prod.mk.injEq] at h
    exact h.2 ▸ hr
  | cons it rest ih =>
    intro ids acc ids' rows' h r hr
    cases hid : itemIdOf it with
    | none =>
      simp only [processItems, hid] at h
      exact ih _ _ _ _ h r hr
    | some m =>
      simp only [processItems, hid] at h
      by_cases hm : m ∈ ids
      · rw [if_pos hm] at h
        exact ih _ _ _ _ h r hr
      · rw [if_neg hm] at h
        cases hrow : normalizeItemV it with
        | error e => rw [hrow] at h; cases h
        | ok row =>
          rw [hrow] at h
          exact ih _ _ _ _ h r (by simp [hr])

/-- After a successful per-item pass, every coercible identifier of the
page is in the resulting ledger. -/
theorem processItems_covers :
    ∀ (l : List JVal) (ids : List Int) (acc : List Row) (ids' : List Int)
      (rows' : List Row), processItems l ids acc = .ok (ids', rows') →
      ∀ it ∈ l, ∀ n : Int, itemIdOf it = some n → n ∈ ids' := by
  intro l
  induction l with
  | nil => intro ids acc ids' rows' h it hit; cases hit
  | cons it0 rest ih =>
    intro ids acc ids' rows' h it hit n hn
    rcases List.mem_cons.mp hit with hit | hit
    · subst hit
      cases hid : itemIdOf it with
      | none => rw [hid] at hn; cases hn
      | some m =>
        rw [hid] at hn
        injection hn with hnm
        subst hnm
        simp only [processItems, hid] at h
        by_cases hm : m ∈ ids
        · rw [if_pos hm] at h
          exact processItems_ids_mono _ _ _ _ _ h m hm
        · rw [if_neg hm] at h
          cases hrow : normalizeItemV it with
          | error e => rw [hrow] at h; cases h
          | ok row =>
            rw [hrow] at h
            exact processItems_ids_mono _ _ _ _ _ h m (by simp)
    · cases hid : itemIdOf it0 with
      | none =>
        simp only [processItems, hid] at h
        exact ih _ _ _ _ h it hit n hn
      | some m =>
        simp only [processItems, hid] at h
        by_cases hm : m ∈ ids
        · rw [if_pos hm] at h
          exact ih _ _ _ _ h it hit n hn
        · rw [if_neg hm] at h
          cases hrow : normalizeItemV it0 with
          | error e => rw [hrow] at h; cases h
          | ok row =>
            rw [hrow] at h
            exact ih _ _ _ _ h it hit n hn

/-- A page whose coercible identifiers are all already known leaves the
ledger and the collected rows untouched. -/
theorem processItems_skip :
    ∀ (l : List JVal) (ids : List Int) (acc : List Row),
      (∀ it ∈ l, ∀ n : Int, itemIdOf it = some n → n ∈ ids) →
      processItems l ids acc = .ok (ids, acc) := by
  intro l
  induction l with
  | nil => intro ids acc _; rfl
  | cons it rest ih =>
    intro ids acc hcov
    cases hid : itemIdOf it with
    | none =>
      simp only [processItems, hid]
      exact ih ids acc (fun x hx => hcov x (by simp [hx]))
    | some n =>
      simp only [processItems, hid]
      rw [if_pos (hcov it (by simp) n hid)]
      exact ih ids acc (fun x hx => hcov x (by simp [hx]))

/-- Provenance of ledger entries: under the round-trip hypothesis, every
identifier in the resulting ledger was either known before or belongs to
a collected row whose persisted cell re-parses to it. -/
theorem processItems_ids_from :
    ∀ (l : List JVal) (ids : List Int) (acc : List Row) (ids' : List Int)
      (rows' : List Row), processItems l ids acc = .ok (ids', rows') →
      (∀ it ∈ l, idRoundTrips it) →
      ∀ n ∈ ids', n ∈ ids ∨
        ∃ row ∈ rows', pyIntString (pyStrCell row.item_id) = some n := by
  intro l
  induction l with
  | nil =>
    intro ids acc ids' rows' h _ n hn
    simp only [processItems, Except.ok.injEq, Prod.mk.injEq] at h
    exact Or.inl (h.1 ▸ hn)
  | cons it rest ih =>
    intro ids acc ids' rows' h hrt n hn
    have hrtrest : ∀ x ∈ rest, idRoundTrips x := fun x hx => hrt x (by simp [hx])
    cases hid : itemIdOf it with
    | none =>
      simp only [processItems, hid] at h
      exact ih _ _ _ _ h hrtrest n hn
    | some m =>
      simp only [processItems, hid] at h
      by_cases hm : m ∈ ids
      · rw [if_pos hm] at h
        exact ih _ _ _ _ h hrtrest n hn
      · rw [if_neg hm] at h
        cases hrow : normalizeItemV it with
        | error e => rw [hrow] at h; cases h
        | ok row =>
          rw [hrow] at h
          rcases ih _ _ _ _ h hrtrest n hn with hin | ⟨row2, hrow2, hp⟩
          · rcases List.mem_cons.mp hin with hnm | hin2
            · subst hnm
              right
              refine ⟨row, processItems_acc_mono _ _ _ _ _ h row (by simp), ?_⟩
              have hP : pyIntString (pyStrCell (rawIdOf it)) = some n :=
                hrt it (by simp) n hid
              cases it with
              | jobj fs =>
                rw [normalize_item_id fs row hrow]
                exact hP
              | jnull => cases hrow
              | jbool b => cases hrow
              | jint k => cases hrow
              | jfloat q => cases hrow
              | jstr s => cases hrow
              | jarr xs => cases hrow
            · exact Or.inl hin2
          · exact Or.inr ⟨row2, hrow2, hp⟩

/-- The crawl loop only grows the ledger. -/
theorem crawlLoop_ids_mono (auto stopUnch : Bool) (mp tp : Nat)
    (up : Nat → Option JVal) :
    ∀ fuel page fetched ids rows n, n ∈ ids →
      n ∈ (crawlLoop auto stopUnch mp tp up fuel page fetched ids rows).ids := by
  intro fuel
  induction fuel with
  | zero => intro page fetched ids rows n hn; exact hn
  | succ fuel ih =>
    intro page fetched ids rows n hn
    simp only [crawlLoop]
    repeat' split
    all_goals try exact hn
    · rename_i ids' newRows heqp hcond
      exact processItems_ids_mono _ _ _ _ _ heqp n hn
    · rename_i ids' newRows heqp hcond
      exact ih _ _ _ _ n (processItems_ids_mono _ _ _ _ _ heqp n hn)

/-- The crawl loop only appends to the collected rows. -/
theorem crawlLoop_rows_mono (auto stopUnch : Bool) (mp tp : Nat)
    (up : Nat → Option JVal) :
    ∀ fuel page fetched ids rows r, r ∈ rows →
      r ∈ (crawlLoop auto stopUnch mp tp up fuel page fetched ids rows).rows := by
  intro fuel
  induction fuel with
  | zero => intro page fetched ids rows r hr; exact hr
  | succ fuel ih =>
    intro page fetched ids rows r hr
    simp only [crawlLoop]
    repeat' split
    all_goals try exact hr
    · exact List.mem_append_left _ hr
    · rename_i ids' newRows heqp hcond
      exact ih _ _ _ _ r (List.mem_append_left _ hr)

/-- Every page the loop fully processed is covered by the final ledger:
all its coercible identifiers are known afterwards. -/
theorem crawlLoop_covers (auto stopUnch : Bool) (mp tp : Nat)
    (up : Nat → Option JVal) :
    ∀ fuel page fetched ids rows p k m,
      Ev.fetchPage p k m ∈
        (crawlLoop auto stopUnch mp tp up fuel page fetched ids rows).log →
      covered up (crawlLoop auto stopUnch mp tp up fuel page fetched ids rows).ids
        p := by
  intro fuel
  induction fuel with
  | zero => intro page fetched ids rows p k m hmem; cases hmem
  | succ fuel ih =>
    intro page fetched ids rows p k m
    by_cases h1 : auto = false ∧ tp < page
    · simp only [crawlLoop]
      rw [if_pos h1]
      exact fun hmem => absurd hmem (List.not_mem_nil _)
    by_cases h2 : auto = true ∧ mp ≤ fetched
    · simp only [crawlLoop]
      rw [if_neg h1, if_pos h2]
      exact fun hmem => absurd hmem (List.not_mem_nil _)
    cases hup : up page with
    | none =>
      simp only [crawlLoop, hup]
      rw [if_neg h1, if_neg h2]
      intro hmem
      simp at hmem
    | some data =>
      cases hex : extract_items data with
      | none =>
        simp only [crawlLoop, hup, hex]
        rw [if_neg h1, if_neg h2]
        intro hmem
        simp at hmem
      | some l =>
        cases l with
        | nil =>
          simp only [crawlLoop, hup, hex]
          rw [if_neg h1, if_neg h2]
          intro hmem
          simp at hmem
        | cons it0 restItems =>
          cases hpi : processItems (it0 :: restItems) ids [] with
          | error e =>
            simp only [crawlLoop, hup, hex, hpi]
            rw [if_neg h1, if_neg h2]
            intro hmem
            simp at hmem
          | ok pr =>
            obtain ⟨ids', newRows⟩ := pr
            by_cases hcond : auto = true ∧ stopUnch = true ∧ newRows.length = 0
            · simp only [crawlLoop, hup, hex, hpi]
              rw [if_neg h1, if_neg h2, if_pos hcond]
              intro hmem
              simp only [List.mem_singleton, Ev.fetchPage.injEq] at hmem
              obtain ⟨hp, _, _⟩ := hmem
              subst hp
              intro d hd l2 hl it hit n hn
              rw [hup] at hd
              injection hd with hd
              subst hd
              rw [hex] at hl
              injection hl with hl
              subst hl
              exact processItems_covers _ _ _ _ _ hpi it hit n hn
            · simp only [crawlLoop, hup, hex, hpi]
              rw [if_neg h1, if_neg h2, if_neg hcond]
              intro hmem
              rcases List.mem_cons.mp hmem with he | ht
              · simp only [Ev.fetchPage.injEq] at he
                obtain ⟨hp, _, _⟩ := he
                subst hp
                intro d hd l2 hl it hit n hn
                rw [hup] at hd
                injection hd with hd
                subst hd
                rw [hex] at hl
                injection hl with hl
                subst hl
                exact crawlLoop_ids_mono auto stopUnch mp tp up fuel _ _ _ _ n
                  (processItems_covers _ _ _ _ _ hpi it hit n hn)
              · exact ih _ _ _ _ p k m ht

/-- Provenance of the final ledger: under the round-trip hypothesis each
entry was known at loop start or is re-parseable from a collected row. -/
theorem crawlLoop_ids_from (auto stopUnch : Bool) (mp tp : Nat)
    (up : Nat → Option JVal) (hrt : upRoundTrips up) :
    ∀ fuel page fetched ids rows n,
      n ∈ (crawlLoop auto stopUnch mp tp up fuel page fetched ids rows).ids →
      n ∈ ids ∨
        ∃ row ∈ (crawlLoop auto stopUnch mp tp up fuel page fetched ids rows).rows,
          pyIntString (pyStrCell row.item_id) = some n := by
  intro fuel
  induction fuel with
  | zero => intro page fetched ids rows n hn; exact Or.inl hn
  | succ fuel ih =>
    intro page fetched ids rows n
    by_cases h1 : auto = false ∧ tp < page
    · simp only [crawlLoop]
      rw [if_pos h1]
      exact Or.inl
    by_cases h2 : auto = true ∧ mp ≤ fetched
    · simp only [crawlLoop]
      rw [if_neg h1, if_pos h2]
      exact Or.inl
    cases hup : up page with
    | none =>
      simp only [crawlLoop, hup]
      rw [if_neg h1, if_neg h2]
      exact Or.inl
    | some data =>
      cases hex : extract_items data with
      | none =>
        simp only [crawlLoop, hup, hex]
        rw [if_neg h1, if_neg h2]
        exact Or.inl
      | some l =>
        cases l with
        | nil =>
          simp only [crawlLoop, hup, hex]
          rw [if_neg h1, if_neg h2]
          exact Or.inl
        | cons it0 restItems =>
          cases hpi : processItems (it0 :: restItems) ids [] with
          | error e =>
            simp only [crawlLoop, hup, hex, hpi]
            rw [if_neg h1, if_neg h2]
            exact Or.inl
          | ok pr =>
            obtain ⟨ids', newRows⟩ := pr
            have hrtpage : ∀ it ∈ it0 :: restItems, idRoundTrips it :=
              hrt page data hup _ hex
            by_cases hcond : auto = true ∧ stopUnch = true ∧ newRows.length = 0
            · simp only [crawlLoop, hup, hex, hpi]
              rw [if_neg h1, if_neg h2, if_pos hcond]
              intro hn
              rcases processItems_ids_from _ _ _ _ _ hpi hrtpage n hn with h | ⟨row, hr, hp⟩
              · exact Or.inl h
              · exact Or.inr ⟨row, List.mem_append_right _ hr, hp⟩
            · simp only [crawlLoop, hup, hex, hpi]
              rw [if_neg h1, if_neg h2, if_neg hcond]
              intro hn
              rcases ih (page + 1) (fetched + 1) ids' (rows ++ newRows) n hn with
                h | ⟨row, hr, hp⟩
              · rcases processItems_ids_from _ _ _ _ _ hpi hrtpage n h with
                  h2 | ⟨row, hr, hp⟩
                · exact Or.inl h2
                · exact Or.inr ⟨row,
                    crawlLoop_rows_mono auto stopUnch mp tp up fuel _ _ _ _ row
                      (List.mem_append_right _ hr), hp⟩
              · exact Or.inr ⟨row, hr, hp⟩

/-- Simulation: rerunning the loop from the same start position with a
ledger that covers every page the first run processed collects no rows —
every item is filtered as already known (and in particular the rerun
never normalizes, hence never crashes). -/
theorem crawlLoop_sim (auto stopUnch : Bool) (mp tp : Nat)
    (up : Nat → Option JVal) :
    ∀ fuel page fetched idsA rowsA ids2 rows2,
      (∀ p k m, Ev.fetchPage p k m ∈
          (crawlLoop auto stopUnch mp tp up fuel page fetched idsA rowsA).log →
        covered up ids2 p) →
      (∀ e, (crawlLoop auto stopUnch mp tp up fuel page fetched idsA rowsA).reason ≠
        .crash e) →
      (crawlLoop auto stopUnch mp tp up fuel page fetched ids2 rows2).rows =
        rows2 := by
  intro fuel
  induction fuel with
  | zero => intro page fetched idsA rowsA ids2 rows2 _ _; rfl
  | succ fuel ih =>
    intro page fetched idsA rowsA ids2 rows2 hcov hnc
    by_cases h1 : auto = false ∧ tp < page
    · simp only [crawlLoop]
      rw [if_pos h1]
    by_cases h2 : auto = true ∧ mp ≤ fetched
    · simp only [crawlLoop]
      rw [if_neg h1, if_pos h2]
    cases hup : up page with
    | none =>
      simp only [crawlLoop, hup]
      rw [if_neg h1, if_neg h2]
    | some data =>
      cases hex : extract_items data with
      | none =>
        simp only [crawlLoop, hup, hex]
        rw [if_neg h1, if_neg h2]
      | some l =>
        cases l with
        | nil =>
          simp only [crawlLoop, hup, hex]
          rw [if_neg h1, if_neg h2]
        | cons it0 restItems =>
          cases hpiA : processItems (it0 :: restItems) idsA [] with
          | error e =>
            exfalso
            apply hnc e
            simp only [crawlLoop, hup, hex, hpiA]
            rw [if_neg h1, if_neg h2]
          | ok prA =>
            obtain ⟨idsA2, newA⟩ := prA
            have hcovpage : covered up ids2 page := by
              by_cases hcondA : auto = true ∧ stopUnch = true ∧ newA.length = 0
              · apply hcov page (it0 :: restItems).length newA.length
                simp only [crawlLoop, hup, hex, hpiA]
                rw [if_neg h1, if_neg h2, if_pos hcondA]
                simp
              · apply hcov page (it0 :: restItems).length newA.length
                simp only [crawlLoop, hup, hex, hpiA]
                rw [if_neg h1, if_neg h2, if_neg hcondA]
                simp
            have hskip : processItems (it0 :: restItems) ids2 [] = .ok (ids2, []) :=
              processItems_skip _ _ _
                (fun it hit n hn => hcovpage data hup _ hex it hit n hn)
            simp only [crawlLoop, hup, hex, hskip]
            rw [if_neg h1, if_neg h2]
            by_cases hcond2 : auto = true ∧ stopUnch = true ∧
                ([] : List Row).length = 0
            · rw [if_pos hcond2]
              simp
            · rw [if_neg hcond2]
              have hcondA : ¬(auto = true ∧ stopUnch = true ∧ newA.length = 0) :=
                fun hA => hcond2 ⟨hA.1, hA.2.1, rfl⟩
              have hcov2 : ∀ p k m, Ev.fetchPage p k m ∈
                  (crawlLoop auto stopUnch mp tp up fuel (page + 1) (fetched + 1)
                    idsA2 (rowsA ++ newA)).log →
                  covered up ids2 p := by
                intro p k m hm
                apply hcov p k m
                simp only [crawlLoop, hup, hex, hpiA]
                rw [if_neg h1, if_neg h2, if_neg hcondA]
                exact List.mem_cons_of_mem _ hm
              have hnc2 : ∀ e, (crawlLoop auto stopUnch mp tp up fuel (page + 1)
                  (fetched + 1) idsA2 (rowsA ++ newA)).reason ≠ .crash e := by
                intro e he
                apply hnc e
                simp only [crawlLoop, hup, hex, hpiA]
                rw [if_neg h1, if_neg h2, if_neg hcondA]
                exact he
              have hrec := ih (page + 1) (fetched + 1) idsA2 (rowsA ++ newA) ids2
                (rows2 ++ []) hcov2 hnc2
              simpa using hrec

/-- Ledger rehydration distributes over an append to the store. -/
theorem loadExistingIds_append (a b : List Row) :
    loadExistingIds (a ++ b) = loadExistingIds a ++ loadExistingIds b := by
  simp only [loadExistingIds, List.filterMap_append]

/-- C1 (corrected): the crawl is idempotent over an unchanged upstream
PROVIDED every record's identifier survives the store round trip
(`idRoundTrips`): re-running one task over the same upstream leaves the
partition store exactly as the first run left it.  JSON integer
identifiers always satisfy the hypothesis; the unrestricted claim is
false (see the counterexample, where a coercible-but-non-integer
identifier is persisted as text that the rehydration cannot re-parse). -/
theorem c1_idempotent_of_roundtrip (auto stopUnch : Bool) (mp tp : Nat)
    (up : Nat → Option JVal) (csv : List Row) (hrt : upRoundTrips up) :
    (runTask auto stopUnch mp tp up
        (runTask auto stopUnch mp tp up csv).csv).csv =
      (runTask auto stopUnch mp tp up csv).csv := by
  rcases runTask_csv_cases auto stopUnch mp tp up csv with h0 | ⟨happ, hne, hnc⟩
  · rw [h0]
    exact h0
  · rw [runTask_loopOut] at happ hne hnc
    have hids2 : loadExistingIds (runTask auto stopUnch mp tp up csv).csv =
        loadExistingIds csv ++ loadExistingIds
          (crawlLoop auto stopUnch mp tp up (taskFuel auto mp tp) 1 0
            (loadExistingIds csv) []).rows := by
      rw [happ, loadExistingIds_append]
    have hcov : ∀ p k m, Ev.fetchPage p k m ∈
        (crawlLoop auto stopUnch mp tp up (taskFuel auto mp tp) 1 0
          (loadExistingIds csv) []).log →
        covered up (loadExistingIds csv ++ loadExistingIds
          (crawlLoop auto stopUnch mp tp up (taskFuel auto mp tp) 1 0
            (loadExistingIds csv) []).rows) p := by
      intro p k m hm
      have hc := crawlLoop_covers auto stopUnch mp tp up _ 1 0
        (loadExistingIds csv) [] p k m hm
      intro d hd l hl it hit n hn
      have hn1 := hc d hd l hl it hit n hn
      rcases crawlLoop_ids_from auto stopUnch mp tp up hrt _ 1 0
          (loadExistingIds csv) [] n hn1 with h | ⟨row, hr, hp⟩
      · exact List.mem_append_left _ h
      · exact List.mem_append_right _ (List.mem_filterMap.mpr ⟨row, hr, hp⟩)
    have hsim := crawlLoop_sim auto stopUnch mp tp up (taskFuel auto mp tp) 1 0
      (loadExistingIds csv) []
      (loadExistingIds csv ++ loadExistingIds
        (crawlLoop auto stopUnch mp tp up (taskFuel auto mp tp) 1 0
          (loadExistingIds csv) []).rows) [] hcov hnc
    rcases runTask_csv_cases auto stopUnch mp tp up
        (runTask auto stopUnch mp tp up csv).csv with h0 | ⟨_, hne2, _⟩
    · exact h0
    · exfalso
      rw [runTask_loopOut, hids2] at hne2
      exact hne2 hsim

/-- C1 counterexample: with an upstream whose record identifier is the
JSON boolean `true` — accepted by the dedup coercion as the integer 1 but
persisted as the cell text `True`, which `load_existing_ids` cannot
re-parse — the second run of the same crawl appends the record again, so
the store grows instead of staying fixed. -/
theorem c1_counterexample :
    (runTask true true 2 0 upstreamBoolId
        (runTask true true 2 0 upstreamBoolId []).csv).csv.length ≠
      (runTask true true 2 0 upstreamBoolId []).csv.length := by
  decide

/-- Witness for `c1_idempotent_of_roundtrip`: a concrete upstream whose
only record has the JSON integer identifier 5 satisfies the round-trip
hypothesis, and rerunning the task leaves the store unchanged. -/
theorem c1_idempotent_witness :
    upRoundTrips upstreamConstId ∧
    (runTask true true 2 0 upstreamConstId
        (runTask true true 2 0 upstreamConstId []).csv).csv =
      (runTask true true 2 0 upstreamConstId []).csv := by
  have hrt : upRoundTrips upstreamConstId := by
    intro p d hd l hl it hit
    simp only [upstreamConstId, Option.some.injEq] at hd
    subst hd
    rw [show extract_items (JVal.jobj [("items", JVal.jarr
      [JVal.jobj [("itemId", JVal.jint 5)]])]) =
      some [JVal.jobj [("itemId", JVal.jint 5)]] from rfl] at hl
    injection hl with hl
    subst hl
    simp only [List.mem_singleton] at hit
    subst hit
    intro n hn
    have h5 : n = 5 := by
      rw [show itemIdOf (JVal.jobj [("itemId", JVal.jint 5)]) = some 5 from
        rfl] at hn
      injection hn with h
      exact h.symm
    subst h5
    rfl
  exact ⟨hrt, c1_idempotent_of_roundtrip true true 2 0 upstreamConstId [] hrt⟩
